import Mathlib

/-!
# Verification of the CI-fix agent (src/agent.py)

Shallow embedding of the repository's single source file `src/agent.py`.

Python strings are modelled as Lean `String` (a wrapper around `List Char`);
the string-level operations `in`, `split(sep)[-1]`, `strip()` and
`strip("'\"")` are embedded as executable list functions below.  The I/O
surface (the requirements file on disk, the GitHub run/PR endpoints and the
console) is modelled as an explicit `World` record threaded through the
effectful operations; a Python exception is modelled as an `AgentError`
value returned next to the (persisting) world.
-/

set_option maxRecDepth 100000

namespace CIFix

/-- Boolean test that `n` is a prefix of `h` (character lists). -/
def isPrefixL : List Char → List Char → Bool
  | [], _ => true
  | _ :: _, [] => false
  | a :: as, b :: bs => a == b && isPrefixL as bs

/-- Boolean test that `n` occurs as a contiguous substring of `h`;
this embeds Python's `n in h` on strings. -/
def occursIn (n : List Char) : List Char → Bool
  | [] => isPrefixL n []
  | c :: cs => isPrefixL n (c :: cs) || occursIn n cs

/-- Number of positions of `h` at which `n` occurs (overlaps counted). -/
def occCount (n : List Char) : List Char → Nat
  | [] => if isPrefixL n [] then 1 else 0
  | c :: cs => (if isPrefixL n (c :: cs) then 1 else 0) + occCount n cs

/-- Characters removed by Python's argumentless `str.strip()` (the ASCII
whitespace characters; the logs handled by the agent are ASCII). -/
def isPySpace (c : Char) : Bool :=
  c == ' ' || c == '\t' || c == '\n' || c == '\r' || c == '\x0b' || c == '\x0c'

/-- Characters removed by `str.strip("'\"")` in `diagnose`. -/
def isQuote (c : Char) : Bool :=
  c == '\'' || c == '"'

/-- Embedding of Python's `str.strip(chars)`: remove every leading and every
trailing character satisfying `p`. -/
def pyStrip (p : Char → Bool) (s : List Char) : List Char :=
  ((s.dropWhile p).reverse.dropWhile p).reverse

/-- Prepend the character `c` to the first segment of a split result;
helper for `pySplitAux`. -/
def consHead (c : Char) : List (List Char) → List (List Char)
  | [] => [[c]]
  | seg :: rest => (c :: seg) :: rest

/-- Fuelled embedding of Python's `s.split(marker)`: scan left to right,
cutting at each non-overlapping occurrence of `marker`.  Each character
consumes at least one unit of fuel, so `fuel = s.length` is always enough. -/
def pySplitAux (marker : List Char) : Nat → List Char → List (List Char)
  | 0, s => [s]
  | _ + 1, [] => [[]]
  | fuel + 1, c :: cs =>
      if isPrefixL marker (c :: cs) then
        [] :: pySplitAux marker fuel (List.drop (marker.length - 1) cs)
      else
        consHead c (pySplitAux marker fuel cs)

/-- Embedding of Python's `s.split(marker)[-1]`: the final segment of the
split, i.e. the text after the last occurrence found by the scan. -/
def pyLastSeg (marker s : List Char) : List Char :=
  (pySplitAux marker s.length s).getLastD []

/-- The trigger string tested by `diagnose` (`"ModuleNotFoundError" in logs`). -/
def MNF : String := "ModuleNotFoundError"

/-- The separator used by `diagnose` (`logs.split("No module named")`). -/
def NMN : String := "No module named"

/-- The tagged diagnosis dictionary produced by `CIFixAgent.diagnose`. -/
inductive Diagnosis
  | missing_dependency (dependency : String)
  | unknown
deriving DecidableEq

/-- Embedding of `logs.split("No module named")[-1].strip().strip("'\"")`. -/
def extractName (logs : String) : String :=
  String.mk (pyStrip isQuote (pyStrip isPySpace (pyLastSeg NMN.data logs.data)))

/-- Embedding of `CIFixAgent.diagnose`. -/
def diagnose (logs : String) : Diagnosis :=
  if occursIn MNF.data logs.data then
    Diagnosis.missing_dependency (extractName logs)
  else
    Diagnosis.unknown

/-- State of the `requirements.txt` file.  `content = none` models a file
that cannot be read (`Path.read_text` raises); `writable = false` models a
file whose directory rejects `Path.write_text`. -/
structure Fs where
  content : Option String
  writable : Bool
deriving DecidableEq

/-- State of the GitHub endpoints used by `GitHubTool`.  The `…Ok` flags
model whether the corresponding `requests` transport call succeeds (a
`false` flag makes the call raise). -/
structure GitHub where
  logsOk : Bool
  logs : String
  getRunOk : Bool
  pullRequests : List Nat
  postOk : Bool
deriving DecidableEq

/-- The explicit world threaded through the effectful methods: the
filesystem, the GitHub endpoints, the bodies handed to the reporting sink
(`post_pr_comment` invocations), the comments actually delivered to a PR,
and the console output. -/
structure World where
  fs : Fs
  github : GitHub
  sinkCalls : List String
  comments : List (Nat × String)
  console : List String
deriving DecidableEq

/-- Python exceptions that can escape the agent's methods. -/
inductive AgentError
  | fileError
  | httpError
deriving DecidableEq

/-- Pure content transformation of `FilesystemTool.add_dependency`:
`if dependency not in content: write(content + "\n" + dependency + "\n")`. -/
def add_dependency_content (dependency content : String) : String :=
  if occursIn dependency.data content.data then content
  else content ++ "\n" ++ dependency ++ "\n"

/-- Embedding of `FilesystemTool.add_dependency`: read the file (raising if
unreadable), skip the write when the dependency already occurs as a
substring, otherwise append `"\n" + dependency + "\n"` (raising if the file
is not writable). -/
def add_dependency (w : World) (dependency : String) : World × Option AgentError :=
  match w.fs.content with
  | none => (w, some AgentError.fileError)
  | some content =>
      if occursIn dependency.data content.data then (w, none)
      else if w.fs.writable then
        ({ w with fs := { content := some (content ++ "\n" ++ dependency ++ "\n"),
                          writable := w.fs.writable } }, none)
      else (w, some AgentError.fileError)

/-- Embedding of `GitHubTool.post_pr_comment`: the body is handed to the
sink, the run is fetched (raising on transport failure), a run with no
associated pull request is a logged no-op, otherwise the comment is posted
to the first pull request (raising on transport failure). -/
def post_pr_comment (w : World) (body : String) : World × Option AgentError :=
  let w1 : World := { w with sinkCalls := w.sinkCalls ++ [body] }
  if w1.github.getRunOk then
    match w1.github.pullRequests with
    | [] =>
        ({ w1 with console := w1.console ++ ["No PR associated with this workflow run."] },
         none)
    | pr :: _ =>
        if w1.github.postOk then
          ({ w1 with comments := w1.comments ++ [(pr, body)] }, none)
        else (w1, some AgentError.httpError)
  else (w1, some AgentError.httpError)

/-- The PR comment body built by `CIFixAgent.act` for a missing dependency. -/
def reportBody (dep : String) : String :=
  "\n🤖 **CI Janitor Report**\n\n**Error Detected**\n- Missing Python dependency: `" ++
    dep ++
    "`\n\n**Root Cause**\n- Dependency not listed in `requirements.txt`\n\n**Proposed Fix**\n- Added `" ++
    dep ++
    "` to dependencies\n\n**Status**\n- Awaiting human approval before merge\n"

/-- Result of one dispatcher invocation: the spec's `RemediationOutcome`.
`applied` carries the report handed to the sink; `skipped` is the
unmatched-diagnosis no-op. -/
inductive Outcome
  | applied (report : String)
  | skipped
deriving DecidableEq

/-- Embedding of `CIFixAgent.act`.  The returned world always reflects the
side effects performed before any exception: an error after the patch does
not roll the patch back. -/
def act (w : World) (d : Diagnosis) : World × Except AgentError Outcome :=
  match d with
  | Diagnosis.missing_dependency dep =>
      match add_dependency w dep with
      | (w1, some e) => (w1, Except.error e)
      | (w1, none) =>
          match post_pr_comment w1 (reportBody dep) with
          | (w2, some e) => (w2, Except.error e)
          | (w2, none) =>
              ({ w2 with console :=
                  w2.console ++ ["✔ Proposed fix for missing dependency: " ++ dep] },
               Except.ok (Outcome.applied (reportBody dep)))
  | Diagnosis.unknown =>
      ({ w with console := w.console ++ ["No fixable CI hygiene issue detected."] },
       Except.ok Outcome.skipped)

/-- Embedding of `GitHubTool.get_ci_logs`: return the run's concatenated
log text, raising on transport/decode failure. -/
def get_ci_logs (w : World) : Except AgentError String :=
  if w.github.logsOk then Except.ok w.github.logs else Except.error AgentError.httpError

/-- Embedding of `CIFixAgent.run`: fetch logs, diagnose, act. -/
def run (w : World) : World × Except AgentError Outcome :=
  match get_ci_logs w with
  | Except.error e => (w, Except.error e)
  | Except.ok logs => act w (diagnose logs)

/-! ## Helper lemmas on the string-operation embeddings -/

theorem isPrefixL_eq_append (n : List Char) :
    ∀ h : List Char, isPrefixL n h = true → h = n ++ List.drop n.length h := by
  induction n with
  | nil => intro h _; simp
  | cons a as ih =>
    intro h hp
    cases h with
    | nil => simp [isPrefixL] at hp
    | cons b bs =>
      simp only [isPrefixL, Bool.and_eq_true, beq_iff_eq] at hp
      have hb := ih bs hp.2
      simp only [List.length_cons, List.drop_succ_cons, List.cons_append]
      rw [hp.1, ← hb]

theorem isPrefixL_append (n : List Char) : ∀ t : List Char, isPrefixL n (n ++ t) = true := by
  induction n with
  | nil => intro t; simp [isPrefixL]
  | cons a as ih => intro t; simp [isPrefixL, ih]

theorem occursIn_nil_of_ne (n : List Char) (hn : n ≠ []) : occursIn n [] = false := by
  cases n with
  | nil => exact absurd rfl hn
  | cons a as => rfl

theorem occursIn_cons (n : List Char) (c : Char) (cs : List Char) :
    occursIn n (c :: cs) = (isPrefixL n (c :: cs) || occursIn n cs) := rfl

theorem occursIn_of_append (n : List Char) :
    ∀ pre post : List Char, occursIn n (pre ++ n ++ post) = true := by
  intro pre
  induction pre with
  | nil =>
    intro post
    cases n with
    | nil => cases post <;> simp [occursIn, isPrefixL]
    | cons a as =>
      simp only [List.nil_append, List.cons_append, occursIn]
      have := isPrefixL_append (a :: as) post
      simp only [List.cons_append] at this
      simp [this]
  | cons c pre' ih =>
    intro post
    rw [List.cons_append, List.cons_append, occursIn_cons, ih post, Bool.or_true]

theorem dropWhile_head_false (p : Char → Bool) :
    ∀ (l : List Char) (c : Char), (l.dropWhile p).head? = some c → p c = false := by
  intro l
  induction l with
  | nil => intro c h; simp [List.dropWhile] at h
  | cons a as ih =>
    intro c h
    by_cases hp : p a = true
    · rw [List.dropWhile_cons_of_pos hp] at h
      exact ih c h
    · rw [List.dropWhile_cons_of_neg hp] at h
      simp only [List.head?_cons, Option.some.injEq] at h
      rw [← h]
      exact Bool.eq_false_iff.mpr hp

theorem dropWhile_getLast? (p : Char → Bool) :
    ∀ l : List Char, l.dropWhile p ≠ [] → (l.dropWhile p).getLast? = l.getLast? := by
  intro l
  induction l with
  | nil => intro h; simp [List.dropWhile] at h
  | cons a as ih =>
    intro h
    by_cases hp : p a = true
    · rw [List.dropWhile_cons_of_pos hp] at h ⊢
      cases has : as with
      | nil => rw [has] at h; simp [List.dropWhile] at h
      | cons b bs =>
        rw [← has, ih h, has, List.getLast?_cons_cons]
    · rw [List.dropWhile_cons_of_neg hp]

theorem pyStrip_head? (p : Char → Bool) (l : List Char) (c : Char)
    (h : (pyStrip p l).head? = some c) : p c = false := by
  unfold pyStrip at h
  rw [List.head?_reverse] at h
  have hne : ((l.dropWhile p).reverse.dropWhile p) ≠ [] := by
    intro he; rw [he] at h; simp at h
  rw [dropWhile_getLast? p _ hne, List.getLast?_reverse] at h
  exact dropWhile_head_false p _ c h

theorem pyStrip_getLast? (p : Char → Bool) (l : List Char) (c : Char)
    (h : (pyStrip p l).getLast? = some c) : p c = false := by
  unfold pyStrip at h
  rw [List.getLast?_reverse] at h
  exact dropWhile_head_false p _ c h

theorem data_append (a b : String) : (a ++ b).data = a.data ++ b.data := by
  cases a with
  | mk da => cases b with
    | mk db => rfl

/-! ## Characterization of the split embedding -/

theorem consHead_ne_nil (c : Char) (l : List (List Char)) : consHead c l ≠ [] := by
  cases l <;> simp [consHead]

theorem pySplitAux_ne_nil (marker : List Char) :
    ∀ (fuel : Nat) (s : List Char), pySplitAux marker fuel s ≠ [] := by
  intro fuel
  induction fuel with
  | zero => intro s; simp [pySplitAux]
  | succ n ih =>
    intro s
    cases s with
    | nil => simp [pySplitAux]
    | cons c cs =>
      cases hp : isPrefixL marker (c :: cs) with
      | true => simp [pySplitAux, hp]
      | false =>
        simp only [pySplitAux, hp]
        simp only [Bool.false_eq_true, if_false]
        exact consHead_ne_nil c _

theorem pySplitAux_of_not_occurs (marker : List Char) :
    ∀ (fuel : Nat) (s : List Char), occursIn marker s = false →
      pySplitAux marker fuel s = [s] := by
  intro fuel
  induction fuel with
  | zero => intro s _; rfl
  | succ n ih =>
    intro s h
    cases s with
    | nil => rfl
    | cons c cs =>
      rw [occursIn_cons, Bool.or_eq_false_iff] at h
      obtain ⟨h1, h2⟩ := h
      simp [pySplitAux, h1, ih cs h2, consHead]

theorem two_le_pySplitAux_of_occurs (marker : List Char) (hm : marker ≠ []) :
    ∀ (fuel : Nat) (s : List Char), s.length ≤ fuel → occursIn marker s = true →
      2 ≤ (pySplitAux marker fuel s).length := by
  intro fuel
  induction fuel with
  | zero =>
    intro s hle hocc
    have hs : s = [] := List.length_eq_zero.mp (Nat.le_zero.mp hle)
    rw [hs, occursIn_nil_of_ne marker hm] at hocc
    cases hocc
  | succ n ih =>
    intro s hle hocc
    cases s with
    | nil =>
      rw [occursIn_nil_of_ne marker hm] at hocc
      cases hocc
    | cons c cs =>
      cases hp : isPrefixL marker (c :: cs) with
      | true =>
        simp only [pySplitAux, hp, if_true, List.length_cons]
        have hne := pySplitAux_ne_nil marker n (List.drop (marker.length - 1) cs)
        have hpos : 0 < (pySplitAux marker n (List.drop (marker.length - 1) cs)).length :=
          List.length_pos.mpr hne
        omega
      | false =>
        have h2 : occursIn marker cs = true := by
          rw [occursIn_cons, hp, Bool.false_or] at hocc
          exact hocc
        have hle' : cs.length ≤ n := by
          simp only [List.length_cons] at hle
          omega
        have hrec := ih cs hle' h2
        simp only [pySplitAux, hp, Bool.false_eq_true, if_false]
        cases hr : pySplitAux marker n cs with
        | nil => exact absurd hr (pySplitAux_ne_nil marker n cs)
        | cons seg rest =>
          rw [hr] at hrec
          simp only [consHead, List.length_cons] at hrec ⊢
          omega

theorem pySplitAux_last (marker : List Char) (hm : marker ≠ []) :
    ∀ (fuel : Nat) (s : List Char), s.length ≤ fuel →
      occursIn marker ((pySplitAux marker fuel s).getLastD []) = false ∧
      ((∃ pre, s = pre ++ marker ++ (pySplitAux marker fuel s).getLastD []) ∨
        ((pySplitAux marker fuel s).getLastD [] = s ∧ occursIn marker s = false)) := by
  intro fuel
  induction fuel with
  | zero =>
    intro s hle
    have hs : s = [] := List.length_eq_zero.mp (Nat.le_zero.mp hle)
    subst hs
    refine ⟨?_, Or.inr ⟨rfl, occursIn_nil_of_ne marker hm⟩⟩
    simpa using occursIn_nil_of_ne marker hm
  | succ n ih =>
    intro s hle
    cases s with
    | nil =>
      refine ⟨?_, Or.inr ⟨?_, occursIn_nil_of_ne marker hm⟩⟩
      · simp only [pySplitAux]
        simpa using occursIn_nil_of_ne marker hm
      · simp [pySplitAux]
    | cons c cs =>
      cases hp : isPrefixL marker (c :: cs) with
      | true =>
        have hdecomp := isPrefixL_eq_append marker (c :: cs) hp
        have hdrop : List.drop (marker.length - 1) cs = List.drop marker.length (c :: cs) := by
          cases hmk : marker with
          | nil => exact absurd hmk hm
          | cons m ms => simp
        have heq : pySplitAux marker (n + 1) (c :: cs) =
            [] :: pySplitAux marker n (List.drop (marker.length - 1) cs) := by
          simp [pySplitAux, hp]
        have hle' : (List.drop (marker.length - 1) cs).length ≤ n := by
          rw [List.length_drop]
          simp only [List.length_cons] at hle
          omega
        obtain ⟨h1, h2⟩ := ih (List.drop (marker.length - 1) cs) hle'
        rw [heq, List.getLastD_cons]
        set L := (pySplitAux marker n (List.drop (marker.length - 1) cs)).getLastD [] with hLdef
        refine ⟨h1, ?_⟩
        have hs : c :: cs = marker ++ List.drop (marker.length - 1) cs := by
          rw [hdrop]; exact hdecomp
        rcases h2 with ⟨pre, hpre⟩ | ⟨hL, _⟩
        · left
          refine ⟨marker ++ pre, ?_⟩
          rw [hs, hpre]
          simp [List.append_assoc]
        · left
          refine ⟨[], ?_⟩
          rw [List.nil_append, hs, hL]
      | false =>
        cases hocc : occursIn marker cs with
        | false =>
          have hall : occursIn marker (c :: cs) = false := by
            rw [occursIn_cons, hp, hocc]
            rfl
          have hsplit : pySplitAux marker (n + 1) (c :: cs) = [c :: cs] :=
            pySplitAux_of_not_occurs marker (n + 1) (c :: cs) hall
          rw [hsplit]
          exact ⟨by simpa using hall, Or.inr ⟨rfl, hall⟩⟩
        | true =>
          have hle' : cs.length ≤ n := by
            simp only [List.length_cons] at hle
            omega
          have h2le := two_le_pySplitAux_of_occurs marker hm n cs hle' hocc
          obtain ⟨h1, hcase⟩ := ih cs hle'
          cases hr : pySplitAux marker n cs with
          | nil => exact absurd hr (pySplitAux_ne_nil marker n cs)
          | cons seg rest =>
            have hrest : rest ≠ [] := by
              rw [hr] at h2le
              simp only [List.length_cons] at h2le
              intro he
              rw [he] at h2le
              simp at h2le
            have heq : pySplitAux marker (n + 1) (c :: cs) = (c :: seg) :: rest := by
              simp [pySplitAux, hp, hr, consHead]
            have hlastD : ∀ d₁ d₂ : List Char, rest.getLastD d₁ = rest.getLastD d₂ := by
              intro d₁ d₂
              cases rest with
              | nil => exact absurd rfl hrest
              | cons x xs => rw [List.getLastD_cons, List.getLastD_cons]
            rw [hr] at h1 hcase
            rw [List.getLastD_cons] at h1 hcase
            rw [heq, List.getLastD_cons, hlastD (c :: seg) seg]
            refine ⟨h1, ?_⟩
            rcases hcase with ⟨pre, hpre⟩ | ⟨_, hocc'⟩
            · left
              exact ⟨c :: pre, by rw [List.cons_append, List.cons_append, ← hpre]⟩
            · rw [hocc'] at hocc
              cases hocc

theorem pyLastSeg_spec (marker : List Char) (hm : marker ≠ []) (s : List Char) :
    occursIn marker (pyLastSeg marker s) = false ∧
    ((∃ pre, s = pre ++ marker ++ pyLastSeg marker s) ∨
      (pyLastSeg marker s = s ∧ occursIn marker s = false)) :=
  pySplitAux_last marker hm s.length s (Nat.le_refl _)

theorem pyLastSeg_of_not_occurs (marker s : List Char) (h : occursIn marker s = false) :
    pyLastSeg marker s = s := by
  unfold pyLastSeg
  rw [pySplitAux_of_not_occurs marker s.length s h]
  rfl

theorem add_dependency_content_of_occurs (dep content : String)
    (h : occursIn dep.data content.data = true) :
    add_dependency_content dep content = content := by
  unfold add_dependency_content
  rw [if_pos h]

/-! ## Claim theorems -/

/-- Claim C2 (counterexample): the name in a `MissingDependency` diagnosis can be
empty (log ending in `No module named ''`), and can retain leading and trailing
whitespace that sat inside the quotes (log ending in `No module named ' yaml '`),
refuting the invariant that the name is non-empty with no surrounding whitespace. -/
theorem c2_counterexample :
    diagnose ("ModuleNotFoundError: No module named ''") =
      Diagnosis.missing_dependency ("") ∧
    diagnose ("ModuleNotFoundError: No module named ' yaml '") =
      Diagnosis.missing_dependency (" yaml ") :=
  ⟨by decide, by decide⟩

/-- Claim C2 (amended): whenever `diagnose` returns `MissingDependency { name }`,
`name` has no leading and no trailing quote character (`'` or `"`); it may,
however, be empty and may retain leading/trailing whitespace. -/
theorem c2_amended (logs name : String)
    (h : diagnose logs = Diagnosis.missing_dependency name) :
    (∀ c, name.data.head? = some c → isQuote c = false) ∧
    (∀ c, name.data.getLast? = some c → isQuote c = false) := by
  unfold diagnose at h
  by_cases hc : occursIn MNF.data logs.data = true
  · rw [if_pos hc] at h
    have hname : name = extractName logs := by
      injection h with h'
      exact h'.symm
    rw [hname]
    unfold extractName
    exact ⟨fun c hch => pyStrip_head? isQuote _ c hch,
      fun c hcl => pyStrip_getLast? isQuote _ c hcl⟩
  · rw [if_neg hc] at h
    exact Diagnosis.noConfusion h

/-- Claim C2 amended, witnessed at a concrete log. -/
theorem c2_amended_witness :
    (∀ c, ("yaml" : String).data.head? = some c → isQuote c = false) ∧
    (∀ c, ("yaml" : String).data.getLast? = some c → isQuote c = false) :=
  c2_amended ("ModuleNotFoundError: No module named 'yaml'") ("yaml") (by decide)

/-- Claim C5 (counterexample): on a manifest that already lists `yaml` twice,
two successive calls of the patcher with `yaml` leave the file unchanged, so the
dependency appears twice, not exactly once. -/
theorem c5_counterexample :
    add_dependency_content ("yaml") (add_dependency_content ("yaml") ("yaml\nyaml\n")) =
      "yaml\nyaml\n" ∧
    occCount ("yaml" : String).data ("yaml\nyaml\n" : String).data = 2 :=
  ⟨by decide, by decide⟩

/-- Claim C5 (amended): for every dependency name and every initial manifest
content, after one call of the patcher the dependency occurs in the file as a
substring (at least once), and the second call with the same name is a no-op. -/
theorem c5_amended (dep content : String) :
    occursIn dep.data (add_dependency_content dep content).data = true ∧
    add_dependency_content dep (add_dependency_content dep content) =
      add_dependency_content dep content := by
  have hocc : occursIn dep.data (add_dependency_content dep content).data = true := by
    unfold add_dependency_content
    by_cases h : occursIn dep.data content.data = true
    · rw [if_pos h]
      exact h
    · rw [if_neg h, data_append, data_append, data_append]
      have := occursIn_of_append dep.data
        (content.data ++ ("\n" : String).data) (("\n" : String).data)
      simpa [List.append_assoc] using this
  exact ⟨hocc, add_dependency_content_of_occurs dep _ hocc⟩

/-- Claim C6: every log text in which the trigger string `"ModuleNotFoundError"`
does not occur is diagnosed as `Unknown`; `diagnose` is a total function (its
embedding returns a `Diagnosis` for every input, with no error case). -/
theorem c6_no_trigger_unknown (logs : String)
    (h : occursIn MNF.data logs.data = false) :
    diagnose logs = Diagnosis.unknown := by
  have hne : ¬ (occursIn MNF.data logs.data = true) := by
    rw [h]
    exact Bool.false_ne_true
  unfold diagnose
  rw [if_neg hne]

/-- Claim C6, witnessed at the empty log. -/
theorem c6_witness : diagnose ("") = Diagnosis.unknown :=
  c6_no_trigger_unknown ("") (by decide)

/-- Claim C9: on the `Unknown` diagnosis, `act` yields `Skipped`, the manifest
state is byte-for-byte unchanged, and the reporting sink is never invoked
(neither a sink call nor a delivered comment is added). -/
theorem c9_unknown_frame (w : World) :
    ∃ w', act w Diagnosis.unknown = (w', Except.ok Outcome.skipped) ∧
      w'.fs = w.fs ∧ w'.sinkCalls = w.sinkCalls ∧ w'.comments = w.comments :=
  ⟨{ w with console := w.console ++ ["No fixable CI hygiene issue detected."] },
    rfl, rfl, rfl, rfl⟩

/-- Claim C10: a log containing `"ModuleNotFoundError"` but not
`"No module named"` is still diagnosed as a missing dependency, whose name is
the entire log text stripped of leading/trailing whitespace and then of
leading/trailing quote characters. -/
theorem c10_trigger_without_separator (logs : String)
    (h1 : occursIn MNF.data logs.data = true)
    (h2 : occursIn NMN.data logs.data = false) :
    diagnose logs =
      Diagnosis.missing_dependency
        (String.mk (pyStrip isQuote (pyStrip isPySpace logs.data))) := by
  unfold diagnose
  rw [if_pos h1]
  unfold extractName
  rw [pyLastSeg_of_not_occurs NMN.data logs.data h2]

/-- Claim C10, witnessed at the log `"ModuleNotFoundError"` with no separator. -/
theorem c10_witness :
    diagnose ("ModuleNotFoundError") =
      Diagnosis.missing_dependency
        (String.mk (pyStrip isQuote (pyStrip isPySpace ("ModuleNotFoundError" : String).data))) :=
  c10_trigger_without_separator ("ModuleNotFoundError") (by decide) (by decide)

/-- World for the end-to-end scenario of claim C8: manifest `"requests\n"`,
log `ModuleNotFoundError: No module named 'yaml'`, one associated PR, all
transports healthy. -/
def wC8 : World :=
  { fs := { content := some ("requests\n"), writable := true },
    github := { logsOk := true, logs := "ModuleNotFoundError: No module named 'yaml'",
                getRunOk := true, pullRequests := [1], postOk := true },
    sinkCalls := [], comments := [], console := [] }

/-- Claim C8: the end-to-end run on `wC8` rewrites the manifest to
`"requests\n\nyaml\n"`, completes successfully with `Applied`, posts exactly the
report comment to PR 1, and that report contains the substring `yaml`. -/
theorem c8_end_to_end :
    (run wC8).1.fs.content = some ("requests\n\nyaml\n") ∧
    (run wC8).2 = Except.ok (Outcome.applied (reportBody ("yaml"))) ∧
    (run wC8).1.comments = [(1, reportBody ("yaml"))] ∧
    occursIn ("yaml" : String).data (reportBody ("yaml")).data = true := by
  refine ⟨by decide, rfl, by decide, by decide⟩

/-- Claim C1 (counterexample): on a log where text follows the module name on a
later line, the extracted name is everything to the end of the text (with only a
leading quote stripped), not the quoted name on the marker's own line. -/
theorem c1_counterexample :
    diagnose ("ModuleNotFoundError: No module named 'yaml'\nmore") =
      Diagnosis.missing_dependency ("yaml'\nmore") ∧
    ("yaml'\nmore" : String) ≠ "yaml" :=
  ⟨by decide, by decide⟩

/-- Claim C1 (amended): for every log text containing the trigger
`"ModuleNotFoundError"`, `diagnose` returns `MissingDependency` whose name is
the text following the last occurrence of the separator `"No module named"`
extending to the end of the whole text (the whole text when the separator is
absent), stripped of leading/trailing whitespace and then of all (not just one
layer of) leading/trailing quote characters. -/
theorem c1_amended (logs : String)
    (h : occursIn MNF.data logs.data = true) :
    ∃ rest, diagnose logs =
        Diagnosis.missing_dependency (String.mk (pyStrip isQuote (pyStrip isPySpace rest))) ∧
      occursIn NMN.data rest = false ∧
      ((∃ pre, logs.data = pre ++ NMN.data ++ rest) ∨ rest = logs.data) := by
  refine ⟨pyLastSeg NMN.data logs.data, ?_, ?_, ?_⟩
  · unfold diagnose
    rw [if_pos h]
    rfl
  · exact (pyLastSeg_spec NMN.data (by decide) logs.data).1
  · rcases (pyLastSeg_spec NMN.data (by decide) logs.data).2 with ⟨pre, hpre⟩ | ⟨hL, _⟩
    · exact Or.inl ⟨pre, hpre⟩
    · exact Or.inr hL

/-- Claim C1 amended, witnessed at a concrete log. -/
theorem c1_amended_witness :
    ∃ rest, diagnose ("ModuleNotFoundError: No module named 'yaml'") =
        Diagnosis.missing_dependency (String.mk (pyStrip isQuote (pyStrip isPySpace rest))) ∧
      occursIn NMN.data rest = false ∧
      ((∃ pre, ("ModuleNotFoundError: No module named 'yaml'" : String).data =
          pre ++ NMN.data ++ rest) ∨
        rest = ("ModuleNotFoundError: No module named 'yaml'" : String).data) :=
  c1_amended ("ModuleNotFoundError: No module named 'yaml'") (by decide)

/-- On an error, `add_dependency` raised while reading or writing: the error is
the file error and the world is unchanged. -/
theorem add_dependency_error_eq (w : World) (dep : String) (e : AgentError)
    (h : (add_dependency w dep).2 = some e) :
    e = AgentError.fileError ∧ (add_dependency w dep).1 = w := by
  obtain ⟨⟨cont, wr⟩, gh, sk, cm, co⟩ := w
  cases cont with
  | none =>
    refine ⟨?_, rfl⟩
    simp [add_dependency] at h
    exact h.symm
  | some content =>
    by_cases h1 : occursIn dep.data content.data = true
    · simp [add_dependency, h1] at h
    · cases hw : wr with
      | true =>
        subst hw
        simp [add_dependency, h1] at h
      | false =>
        subst hw
        simp [add_dependency, h1] at h ⊢
        exact h.symm

/-- Claim C4: when the manifest patch step fails (file unreadable or
unwritable), `act` on a `MissingDependency` diagnosis surfaces the fatal file
error and hands nothing to the reporting sink, so no `Applied` outcome is
produced without a successful (or correctly skipped) patch. -/
theorem c4_patch_error_fatal (w : World) (dep : String)
    (h : (add_dependency w dep).2 ≠ none) :
    (act w (Diagnosis.missing_dependency dep)).2 = Except.error AgentError.fileError ∧
    (act w (Diagnosis.missing_dependency dep)).1.sinkCalls = w.sinkCalls := by
  cases hr : add_dependency w dep with
  | mk w1 r =>
    cases r with
    | none =>
      rw [hr] at h
      exact absurd rfl h
    | some e =>
      have he := add_dependency_error_eq w dep e (by rw [hr])
      have hw1 : w1 = w := by
        have := he.2
        rw [hr] at this
        exact this
      simp only [act, hr]
      rw [he.1, hw1]
      exact ⟨rfl, rfl⟩

/-- World for the C4 witness: the requirements file is unreadable. -/
def wC4 : World :=
  { fs := { content := none, writable := true },
    github := { logsOk := true, logs := "", getRunOk := true, pullRequests := [],
                postOk := true },
    sinkCalls := [], comments := [], console := [] }

/-- Claim C4, witnessed on a world whose requirements file cannot be read. -/
theorem c4_witness :
    (act wC4 (Diagnosis.missing_dependency ("yaml"))).2 =
      Except.error AgentError.fileError ∧
    (act wC4 (Diagnosis.missing_dependency ("yaml"))).1.sinkCalls = wC4.sinkCalls :=
  c4_patch_error_fatal wC4 ("yaml") (by decide)

/-- World for claim C3: a healthy manifest and run lookup, an associated PR,
but a comment-posting transport that fails. -/
def wC3 : World :=
  { fs := { content := some ("requests\n"), writable := true },
    github := { logsOk := true, logs := "", getRunOk := true, pullRequests := [7],
                postOk := false },
    sinkCalls := [], comments := [], console := [] }

/-- Claim C3 (counterexample): when the comment-posting transport fails after
the manifest patch was applied, the invocation IS aborted as fatal (the
transport error propagates out of `act` instead of being downgraded to a
warning); the patch itself persists. -/
theorem c3_counterexample :
    (act wC3 (Diagnosis.missing_dependency ("yaml"))).2 =
      Except.error AgentError.httpError ∧
    (act wC3 (Diagnosis.missing_dependency ("yaml"))).1.fs.content =
      some ("requests\n\nyaml\n") :=
  ⟨rfl, by decide⟩

/-- Claim C3 (amended): if the reporting-sink transport call fails after the
manifest patch step succeeded, the invocation aborts as fatal with the
transport error, but the already-applied filesystem patch is not rolled back
(the manifest state equals the post-patch state); a missing pull request, in
contrast, is a silent non-fatal no-op and the invocation still yields
`Applied`. -/
theorem c3_amended (w : World) (dep : String)
    (hpatch : (add_dependency w dep).2 = none)
    (hrun : w.github.getRunOk = true) :
    (w.github.pullRequests ≠ [] → w.github.postOk = false →
      (act w (Diagnosis.missing_dependency dep)).2 = Except.error AgentError.httpError ∧
      (act w (Diagnosis.missing_dependency dep)).1.fs = (add_dependency w dep).1.fs) ∧
    (w.github.pullRequests = [] →
      (act w (Diagnosis.missing_dependency dep)).2 =
        Except.ok (Outcome.applied (reportBody dep))) := by
  obtain ⟨⟨cont, wr⟩, ⟨lok, lg, grk, prs, pok⟩, sk, cm, co⟩ := w
  simp only at hrun hpatch ⊢
  subst hrun
  cases cont with
  | none => simp [add_dependency] at hpatch
  | some content =>
    by_cases h1 : occursIn dep.data content.data = true
    · constructor
      · intro hprs hpok
        cases prs with
        | nil => exact absurd rfl hprs
        | cons p ps =>
          subst hpok
          exact ⟨by simp [act, add_dependency, post_pr_comment, h1],
            by simp [act, add_dependency, post_pr_comment, h1]⟩
      · intro hprs
        subst hprs
        simp [act, add_dependency, post_pr_comment, h1]
    · cases hw : wr with
      | false =>
        subst hw
        simp [add_dependency, h1] at hpatch
      | true =>
        subst hw
        constructor
        · intro hprs hpok
          cases prs with
          | nil => exact absurd rfl hprs
          | cons p ps =>
            subst hpok
            exact ⟨by simp [act, add_dependency, post_pr_comment, h1],
              by simp [act, add_dependency, post_pr_comment, h1]⟩
        · intro hprs
          subst hprs
          simp [act, add_dependency, post_pr_comment, h1]

/-- Claim C3 amended, witnessed on `wC3` (patch succeeds, PR present, post
transport down). -/
theorem c3_amended_witness :
    ((wC3.github.pullRequests ≠ [] → wC3.github.postOk = false →
      (act wC3 (Diagnosis.missing_dependency ("yaml"))).2 =
        Except.error AgentError.httpError ∧
      (act wC3 (Diagnosis.missing_dependency ("yaml"))).1.fs =
        (add_dependency wC3 ("yaml")).1.fs) ∧
    (wC3.github.pullRequests = [] →
      (act wC3 (Diagnosis.missing_dependency ("yaml"))).2 =
        Except.ok (Outcome.applied (reportBody ("yaml"))))) :=
  c3_amended wC3 ("yaml") (by decide) (by decide)

/-- Claim C7: on a `MissingDependency { name }` diagnosis whose name already
occurs in the manifest content, `act` leaves the filesystem untouched (no
write), hands exactly one report to the reporting sink, and yields `Applied`
(assuming the sink's transports are healthy). -/
theorem c7_duplicate_reports (w : World) (name content : String)
    (hc : w.fs.content = some content)
    (hin : occursIn name.data content.data = true)
    (hrun : w.github.getRunOk = true)
    (hsink : w.github.pullRequests = [] ∨ w.github.postOk = true) :
    ∃ w', act w (Diagnosis.missing_dependency name) =
        (w', Except.ok (Outcome.applied (reportBody name))) ∧
      w'.fs = w.fs ∧
      w'.sinkCalls = w.sinkCalls ++ [reportBody name] := by
  obtain ⟨⟨cont, wr⟩, ⟨lok, lg, grk, prs, pok⟩, sk, cm, co⟩ := w
  simp only at hc hin hrun hsink ⊢
  subst hc
  subst hrun
  rcases hsink with hprs | hpok
  · subst hprs
    refine ⟨⟨⟨some content, wr⟩, ⟨lok, lg, true, [], pok⟩, sk ++ [reportBody name], cm,
        (co ++ ["No PR associated with this workflow run."]) ++
          ["✔ Proposed fix for missing dependency: " ++ name]⟩, ?_, rfl, rfl⟩
    simp [act, add_dependency, post_pr_comment, hin]
  · subst hpok
    cases prs with
    | nil =>
      refine ⟨⟨⟨some content, wr⟩, ⟨lok, lg, true, [], true⟩, sk ++ [reportBody name], cm,
          (co ++ ["No PR associated with this workflow run."]) ++
            ["✔ Proposed fix for missing dependency: " ++ name]⟩, ?_, rfl, rfl⟩
      simp [act, add_dependency, post_pr_comment, hin]
    | cons p ps =>
      refine ⟨⟨⟨some content, wr⟩, ⟨lok, lg, true, p :: ps, true⟩, sk ++ [reportBody name],
          cm ++ [(p, reportBody name)],
          co ++ ["✔ Proposed fix for missing dependency: " ++ name]⟩, ?_, rfl, rfl⟩
      simp [act, add_dependency, post_pr_comment, hin]

/-- World for the C7 witness: `flask` is already listed in the manifest. -/
def wC7 : World :=
  { fs := { content := some ("flask\n"), writable := true },
    github := { logsOk := true, logs := "", getRunOk := true, pullRequests := [2],
                postOk := true },
    sinkCalls := [], comments := [], console := [] }

/-- Claim C7, witnessed on a manifest already containing `flask`. -/
theorem c7_witness :
    ∃ w', act wC7 (Diagnosis.missing_dependency ("flask")) =
        (w', Except.ok (Outcome.applied (reportBody ("flask")))) ∧
      w'.fs = wC7.fs ∧
      w'.sinkCalls = wC7.sinkCalls ++ [reportBody ("flask")] :=
  c7_duplicate_reports wC7 ("flask") ("flask\n") (by decide) (by decide) (by decide)
    (Or.inr (by decide))

end CIFix
